import Mathlib

/-!
Verification development for the rule-extraction core of
`scripts/nox-gitleaks-import.py` (function `parse_gitleaks`).

The Python function is embedded shallowly at the level of character lists.
Each `re.search` call in the source uses a pattern simple enough that the
regex engine's behaviour is a deterministic left-to-right scan:

* `id\s*=\s*"([^"]+)"`            -> `tryIdAt` searched by `search`
* `description\s*=\s*"([^"]+)"`   -> `tryDescAt`
* `regex\s*=\s*'''(.+?)'''`       -> `tryTripleAt apos`
* `regex\s*=\s*"""(.+?)"""`       -> `tryTripleAt quoteC`
* `regex\s*=\s*"([^"]+)"`         -> `tryPlainRegexAt`
* `keywords\s*=\s*\[([^\]]+)\]`   -> `tryKeywordsAt`
* `re.findall` of `"([^"]+)"`     -> `findallQuoted`
* `entropy\s*=\s*([\d.]+)`        -> `tryEntropyAt`

Modelling notes, visible to a reviewer diffing against the source:
* `\s`, `str.strip` and `\d` are modelled over their ASCII ranges; Python
  additionally accepts rare non-ASCII space and digit characters.  No claim
  below depends on the distinction.
* Python `float` applied to a string drawn from `[0-9.]+` succeeds exactly
  when the string has at least one digit and at most one dot; its value is
  then the exact decimal, modelled here as a rational (`pyFloat`).  The
  concrete decimals appearing in the claims (0.0, 6.0) are exactly
  representable as IEEE doubles, so no rounding is lost on them.
* A raised `ValueError` (the only exception reachable in `parse_gitleaks`,
  from `float`) is modelled as the `none` result of `parseBlock` /
  `parse_gitleaks`.
-/

abbrev Chars := List Char

def quoteC : Char := Char.ofNat 34

def apos : Char := Char.ofNat 39

/-- ASCII whitespace, the characters matched by Python `\s` and stripped by
`str.strip` (restricted to ASCII, see module comment). -/
def isSpace (c : Char) : Bool :=
  c = ' ' || c = '\t' || c = '\n' || c = '\r' || c = Char.ofNat 11 || c = Char.ofNat 12

def dropSpaces (l : Chars) : Chars := l.dropWhile isSpace

def notQuote (c : Char) : Bool := !(c == quoteC)

def notRBrack (c : Char) : Bool := !(c == ']')

def isDigitDot (c : Char) : Bool := c.isDigit || c = '.'

def idKey : Chars := ['i', 'd']

def descKey : Chars := ['d', 'e', 's', 'c', 'r', 'i', 'p', 't', 'i', 'o', 'n']

def regexKey : Chars := ['r', 'e', 'g', 'e', 'x']

def kwKey : Chars := ['k', 'e', 'y', 'w', 'o', 'r', 'd', 's']

def entKey : Chars := ['e', 'n', 't', 'r', 'o', 'p', 'y']

/-- Matches `key\s*=\s*` at the head of `l`; returns the remainder after the
skipped whitespace.  `\s*` is greedy but `\s` cannot match `=`, so the
regex semantics are this deterministic scan. -/
def tryKeyEq (key : Chars) (l : Chars) : Option Chars :=
  if key.isPrefixOf l then
    match dropSpaces (l.drop key.length) with
    | '=' :: l2 => some (dropSpaces l2)
    | _ => none
  else none

/-- Matches `"([^"]+)"` at the head of `l`: an opening quote, a maximal
nonempty run of non-quote characters (greedy `[^"]+` bounded by the closing
quote), a closing quote.  Returns the capture and the rest after the
closing quote. -/
def tryQuoted (l : Chars) : Option (Chars × Chars) :=
  match l with
  | c :: rest =>
    if c = quoteC then
      match rest.dropWhile notQuote with
      | _ :: r3 =>
        if rest.takeWhile notQuote = [] then none
        else some (rest.takeWhile notQuote, r3)
      | [] => none
    else none
  | [] => none

/-- `re.search` semantics for a pattern whose per-position matcher is
`t`: try every start position left to right, return the first success. -/
def search {α : Type} (t : Chars → Option α) : Chars → Option α
  | [] => t []
  | c :: rest =>
    match t (c :: rest) with
    | some x => some x
    | none => search t rest

def tryIdAt (l : Chars) : Option Chars :=
  (tryKeyEq idKey l).bind (fun l1 => (tryQuoted l1).map Prod.fst)

def tryDescAt (l : Chars) : Option Chars :=
  (tryKeyEq descKey l).bind (fun l1 => (tryQuoted l1).map Prod.fst)

def tryPlainRegexAt (l : Chars) : Option Chars :=
  (tryKeyEq regexKey l).bind (fun l1 => (tryQuoted l1).map Prod.fst)

/-- The lazy body `(.+?)` of a triple-quoted match: consume characters
(none of which may be a newline, since `.` does not match `\n`), and stop
at the earliest closing triple `q q q` once at least one character has been
consumed.  `acc` holds the reversed content consumed so far. -/
def tripleScan (q : Char) : Chars → Chars → Option Chars
  | _, [] => none
  | acc, c :: rest =>
    if acc ≠ [] ∧ [q, q, q].isPrefixOf (c :: rest) then some acc.reverse
    else if c = '\n' then none
    else tripleScan q (c :: acc) rest

/-- Matches `regex\s*=\s*qqq(.+?)qqq` at the head of `l`, where `q` is the
triple-quote character (`'` or `"`). -/
def tryTripleAt (q : Char) (l : Chars) : Option Chars :=
  (tryKeyEq regexKey l).bind (fun l1 =>
    if [q, q, q].isPrefixOf l1 then tripleScan q [] (l1.drop 3) else none)

/-- Matches `keywords\s*=\s*\[([^\]]+)\]` at the head of `l`, returning the
bracket contents. -/
def tryKeywordsAt (l : Chars) : Option Chars :=
  (tryKeyEq kwKey l).bind (fun l1 =>
    match l1 with
    | c :: rest =>
      if c = '[' then
        match rest.dropWhile notRBrack with
        | _ :: _ =>
          if rest.takeWhile notRBrack = [] then none
          else some (rest.takeWhile notRBrack)
        | [] => none
      else none
    | [] => none)

/-- Matches `entropy\s*=\s*([\d.]+)` at the head of `l`: the greedy maximal
run of digits and dots, required nonempty. -/
def tryEntropyAt (l : Chars) : Option Chars :=
  (tryKeyEq entKey l).bind (fun l1 =>
    if l1.takeWhile isDigitDot = [] then none
    else some (l1.takeWhile isDigitDot))

/-- `re.findall` of `"([^"]+)"`: all non-overlapping matches left to right.
The `skip` counter consumes the characters of a match already accounted
for, keeping the recursion structural. -/
def findallAux : Chars → Nat → List Chars → List Chars
  | [], _, acc => acc.reverse
  | _ :: rest, skip + 1, acc => findallAux rest skip acc
  | c :: rest, 0, acc =>
    match tryQuoted (c :: rest) with
    | some (content, _) => findallAux rest (content.length + 1) (content :: acc)
    | none => findallAux rest 0 acc

def findallQuoted (l : Chars) : List Chars := findallAux l 0 []

/-- Value of a run of decimal digits, most significant first. -/
def digitsVal (l : Chars) : Nat := l.foldl (fun a c => a * 10 + (c.toNat - 48)) 0

/-- Python `float` applied to a string drawn from `[0-9.]+`: defined (no
`ValueError`) exactly when the string has at least one digit and at most
one dot; the value is the exact decimal as a rational. -/
def pyFloat (s : Chars) : Option ℚ :=
  if s.count '.' ≤ 1 ∧ s.any Char.isDigit then
    some (mkRat (digitsVal (s.takeWhile (fun c => !(c == '.')) ++
        (s.dropWhile (fun c => !(c == '.'))).drop 1))
      (10 ^ ((s.dropWhile (fun c => !(c == '.'))).drop 1).length))
  else none

structure RuleRecord where
  id : Chars
  description : Chars
  regex : Chars
  keywords : List Chars
  entropy : ℚ
deriving DecidableEq

/-- The three-step fallback of the source: triple-single-quoted, then
triple-double-quoted, then plain double-quoted `regex` value. -/
def extractRegex (b : Chars) : Option Chars :=
  match search (tryTripleAt apos) b with
  | some x => some x
  | none =>
    match search (tryTripleAt quoteC) b with
    | some x => some x
    | none => search tryPlainRegexAt b

/-- The entropy value the block contributes: 0.0 when the key is absent,
the parsed float when present, `none` when `float` raises `ValueError`. -/
def entropyResult (b : Chars) : Option ℚ :=
  match search tryEntropyAt b with
  | none => some 0
  | some run => pyFloat run

/-- One iteration of the source's per-block loop body.  `some none` is the
`continue` outcome (no record), `some (some r)` appends `r`, `none` is a
raised `ValueError` from `float`. -/
def parseBlock (b : Chars) : Option (Option RuleRecord) :=
  if b.all isSpace then some none
  else
    match search tryIdAt b with
    | none => some none
    | some rid =>
      match entropyResult b with
      | none => none
      | some e =>
        if (extractRegex b).getD [] ≠ [] then
          some (some ⟨rid, (search tryDescAt b).getD [], (extractRegex b).getD [],
            (match search tryKeywordsAt b with
             | none => []
             | some inner => findallQuoted inner), e⟩)
        else some none

/-- The loop over `parts[1:]`: a raised exception aborts the whole call. -/
def parseBlocks : List Chars → Option (List RuleRecord)
  | [] => some []
  | b :: bs =>
    match parseBlock b with
    | none => none
    | some none => parseBlocks bs
    | some (some r) => (parseBlocks bs).map (fun rs => r :: rs)

def rulesTok : Chars := ['[', '[', 'r', 'u', 'l', 'e', 's', ']', ']']

/-- `str.split(tok)` for a nonempty separator: left-to-right,
non-overlapping.  `skip` consumes the characters of a separator occurrence
already recognised, keeping the recursion structural. -/
def splitAux (tok : Chars) : Chars → Nat → Chars → List Chars
  | [], _, acc => [acc.reverse]
  | _ :: rest, skip + 1, acc => splitAux tok rest skip acc
  | c :: rest, 0, acc =>
    if tok.isPrefixOf (c :: rest) then
      acc.reverse :: splitAux tok rest (tok.length - 1) []
    else splitAux tok rest 0 (c :: acc)

def splitOnTok (tok : Chars) (l : Chars) : List Chars := splitAux tok l 0 []

/-- The embedded `parse_gitleaks`: split on `[[rules]]`, drop the header
segment, run the per-block extraction in order.  `none` models the one
reachable exception (`ValueError` from `float`). -/
def parse_gitleaks (content : Chars) : Option (List RuleRecord) :=
  parseBlocks ((splitOnTok rulesTok content).drop 1)

/-- Does `tok` occur as a contiguous substring? -/
def containsTok (tok : Chars) : Chars → Bool
  | [] => tok.isPrefixOf ([] : Chars)
  | c :: rest => tok.isPrefixOf (c :: rest) || containsTok tok rest

/-- The entropy extraction of block `b` does not raise. -/
def entOk (b : Chars) : Bool := (entropyResult b).isSome

/-- The characters of a plain-quoted `regex` key up to and including the
opening quote. -/
def regexEqQ : Chars := ['r', 'e', 'g', 'e', 'x', ' ', '=', ' ', quoteC]

/-- A block consisting of two plain double-quoted `regex` keys with values
`p` and `q`. -/
def c4Block (p q : Chars) : Chars :=
  regexEqQ ++ (p ++ (quoteC :: (' ' :: (regexEqQ ++ (q ++ [quoteC])))))

/-- The inner text of a `keywords` bracket holding the quoted keywords
`ks` in order, each followed by a comma separator. -/
def kwBuild : List Chars → Chars
  | [] => []
  | k :: ks => quoteC :: (k ++ (quoteC :: ',' :: ' ' :: kwBuild ks))

/-- The characters of an `id` key whose quoted value is empty. -/
def idEmptyPre : Chars := ['i', 'd', ' ', '=', ' ', quoteC, quoteC]

/-! ### Infrastructure lemmas -/

theorem tryQuoted_ne_nil {l c r : Chars} (h : tryQuoted l = some (c, r)) : c ≠ [] := by
  cases l with
  | nil => simp [tryQuoted] at h
  | cons a rest =>
    simp only [tryQuoted] at h
    split at h
    · split at h
      · split at h
        · exact absurd h (by simp)
        · rename_i hne
          injection h with h1
          injection h1 with h1 h2
          intro hc
          exact hne (h1.trans hc)
      · exact absurd h (by simp)
    · exact absurd h (by simp)

theorem search_eq_some {α : Type} {t : Chars → Option α} :
    ∀ {l : Chars} {x : α}, search t l = some x → ∃ s, s <:+ l ∧ t s = some x := by
  intro l
  induction l with
  | nil => exact fun h => ⟨[], List.suffix_refl [], h⟩
  | cons c rest ih =>
    intro x h
    simp only [search] at h
    cases ht : t (c :: rest) with
    | some y =>
      rw [ht] at h
      exact ⟨c :: rest, List.suffix_refl _, ht.trans h⟩
    | none =>
      rw [ht] at h
      obtain ⟨s, hs, hts⟩ := ih h
      exact ⟨s, hs.trans (List.suffix_cons c rest), hts⟩

theorem search_head {α : Type} {t : Chars → Option α} {l : Chars} {x : α}
    (h : t l = some x) : search t l = some x := by
  cases l with
  | nil => simpa [search] using h
  | cons c rest => simp only [search]; rw [h]

theorem tryKeyEq_suffix {k l l1 : Chars} (h : tryKeyEq k l = some l1) : l1 <:+ l := by
  unfold tryKeyEq at h
  split at h
  · split at h
    · rename_i l2 heq
      injection h with h
      subst h
      have h1 : dropSpaces l2 <:+ l2 := List.dropWhile_suffix isSpace
      have h2 : l2 <:+ '=' :: l2 := List.suffix_cons _ _
      have h3 : ('=' :: l2) <:+ l.drop k.length := by
        rw [← heq]; exact List.dropWhile_suffix isSpace
      exact h1.trans (h2.trans (h3.trans (List.drop_suffix _ _)))
    · exact absurd h (by simp)
  · exact absurd h (by simp)

theorem tryKeyEq_key {k l l1 : Chars} (h : tryKeyEq k l = some l1) :
    k.isPrefixOf l = true := by
  unfold tryKeyEq at h
  split at h
  · assumption
  · exact absurd h (by simp)

theorem tripleScan_ne_nil {q : Char} :
    ∀ {l acc x : Chars}, tripleScan q acc l = some x → x ≠ [] := by
  intro l
  induction l with
  | nil => intro acc x h; simp [tripleScan] at h
  | cons c rest ih =>
    intro acc x h
    simp only [tripleScan] at h
    split at h
    · rename_i hcond
      injection h with h
      subst h
      intro hx
      exact hcond.1 (by simpa using hx)
    · split at h
      · exact absurd h (by simp)
      · exact ih h

theorem tryIdAt_ne_nil {l x : Chars} (h : tryIdAt l = some x) : x ≠ [] := by
  unfold tryIdAt at h
  cases hk : tryKeyEq idKey l with
  | none => rw [hk] at h; simp at h
  | some l1 =>
    rw [hk] at h
    simp only [Option.some_bind] at h
    cases hq : tryQuoted l1 with
    | none => rw [hq] at h; simp at h
    | some pr =>
      obtain ⟨c, r⟩ := pr
      rw [hq] at h
      simp at h
      subst h
      exact tryQuoted_ne_nil hq

theorem tryIdAt_key {s : Chars} {x : Chars} (h : tryIdAt s = some x) :
    idKey.isPrefixOf s = true := by
  unfold tryIdAt at h
  cases hk : tryKeyEq idKey s with
  | none => rw [hk] at h; simp at h
  | some l1 => exact tryKeyEq_key hk

theorem tryTripleAt_ne_nil {q : Char} {l x : Chars} (h : tryTripleAt q l = some x) :
    x ≠ [] := by
  unfold tryTripleAt at h
  cases hk : tryKeyEq regexKey l with
  | none => rw [hk] at h; simp at h
  | some l1 =>
    rw [hk] at h
    simp only [Option.some_bind] at h
    split at h
    · exact tripleScan_ne_nil h
    · exact absurd h (by simp)

theorem tryPlainRegexAt_ne_nil {l x : Chars} (h : tryPlainRegexAt l = some x) : x ≠ [] := by
  unfold tryPlainRegexAt at h
  cases hk : tryKeyEq regexKey l with
  | none => rw [hk] at h; simp at h
  | some l1 =>
    rw [hk] at h
    simp only [Option.some_bind] at h
    cases hq : tryQuoted l1 with
    | none => rw [hq] at h; simp at h
    | some pr =>
      obtain ⟨c, r⟩ := pr
      rw [hq] at h
      simp at h
      subst h
      exact tryQuoted_ne_nil hq

theorem extractRegex_ne_nil {b x : Chars} (h : extractRegex b = some x) : x ≠ [] := by
  unfold extractRegex at h
  cases h1 : search (tryTripleAt apos) b with
  | some y =>
    rw [h1] at h
    injection h with h
    subst h
    obtain ⟨s, _, hts⟩ := search_eq_some h1
    exact tryTripleAt_ne_nil hts
  | none =>
    rw [h1] at h
    cases h2 : search (tryTripleAt quoteC) b with
    | some y =>
      rw [h2] at h
      injection h with h
      subst h
      obtain ⟨s, _, hts⟩ := search_eq_some h2
      exact tryTripleAt_ne_nil hts
    | none =>
      rw [h2] at h
      obtain ⟨s, _, hts⟩ := search_eq_some h
      exact tryPlainRegexAt_ne_nil hts

theorem containsTok_of {tok : Chars} :
    ∀ {l s : Chars}, s <:+ l → tok.isPrefixOf s = true → containsTok tok l = true := by
  intro l
  induction l with
  | nil =>
    intro s hs hp
    have hnil : s = [] := List.suffix_nil.mp hs
    subst hnil
    simpa [containsTok] using hp
  | cons c rest ih =>
    intro s hs hp
    rcases List.suffix_cons_iff.mp hs with h | h
    · subst h
      simp [containsTok, hp]
    · simp [containsTok, ih h hp]

theorem search_none_of_key {α : Type} {t : Chars → Option α} {key : Chars}
    (ht : ∀ s x, t s = some x → key.isPrefixOf s = true) :
    ∀ {l : Chars}, containsTok key l = false → search t l = none := by
  intro l
  induction l with
  | nil =>
    intro hc
    cases h : t [] with
    | none => simpa [search] using h
    | some x =>
      have hpre := ht [] x h
      simp only [containsTok] at hc
      rw [hpre] at hc
      cases hc
  | cons c rest ih =>
    intro hc
    simp only [containsTok, Bool.or_eq_false_iff] at hc
    cases h : t (c :: rest) with
    | some x =>
      have := ht _ _ h
      rw [this] at hc
      exact absurd hc.1 (by simp)
    | none =>
      simp only [search]
      rw [h]
      exact ih hc.2

theorem search_tripleAt_none {q : Char} {b : Chars}
    (h : containsTok [q, q, q] b = false) : search (tryTripleAt q) b = none := by
  cases hs : search (tryTripleAt q) b with
  | none => rfl
  | some x =>
    obtain ⟨s, hsb, ht⟩ := search_eq_some hs
    unfold tryTripleAt at ht
    cases hk : tryKeyEq regexKey s with
    | none => rw [hk] at ht; simp at ht
    | some l1 =>
      rw [hk] at ht
      simp only [Option.some_bind] at ht
      split at ht
      · rename_i hpre
        have h1 := containsTok_of ((tryKeyEq_suffix hk).trans hsb) hpre
        rw [h1] at h
        cases h
      · exact absurd ht (by simp)

theorem splitAux_no_tok {tok : Chars} :
    ∀ {l : Chars} (acc : Chars), containsTok tok l = false →
      splitAux tok l 0 acc = [acc.reverse ++ l] := by
  intro l
  induction l with
  | nil => intro acc _; simp [splitAux]
  | cons c rest ih =>
    intro acc h
    simp only [containsTok, Bool.or_eq_false_iff] at h
    simp only [splitAux]
    rw [if_neg (by rw [h.1]; exact Bool.false_ne_true)]
    rw [ih (c :: acc) h.2]
    simp

theorem parseBlocks_eq :
    ∀ {bs : List Chars} {rs : List RuleRecord}, parseBlocks bs = some rs →
      rs = bs.filterMap (fun b => (parseBlock b).getD none) := by
  intro bs
  induction bs with
  | nil =>
    intro rs h
    simp only [parseBlocks] at h
    injection h with h
    simp [← h]
  | cons b bs ih =>
    intro rs h
    simp only [parseBlocks] at h
    cases hb : parseBlock b with
    | none => rw [hb] at h; cases h
    | some o =>
      rw [hb] at h
      cases o with
      | none =>
        simp only [List.filterMap_cons, hb, Option.getD_some]
        exact ih h
      | some r =>
        cases hrs : parseBlocks bs with
        | none => rw [hrs] at h; simp at h
        | some rs2 =>
          rw [hrs] at h
          simp only [Option.map_some] at h
          injection h with h
          subst h
          simp only [List.filterMap_cons, hb, Option.getD_some]
          rw [← ih hrs]

theorem parseBlock_ne_none {b : Chars} (h : entOk b = true) : parseBlock b ≠ none := by
  unfold parseBlock
  split
  · simp
  · cases hid : search tryIdAt b with
    | none => simp [hid]
    | some rid =>
      cases he : entropyResult b with
      | none =>
        unfold entOk at h
        rw [he] at h
        cases h
      | some e =>
        simp only [hid, he]
        split <;> simp

theorem parseBlocks_isSome :
    ∀ {bs : List Chars}, (∀ b ∈ bs, entOk b = true) → (parseBlocks bs).isSome = true := by
  intro bs
  induction bs with
  | nil => intro _; rfl
  | cons b bs ih =>
    intro h
    simp only [parseBlocks]
    cases hb : parseBlock b with
    | none => exact absurd hb (parseBlock_ne_none (h b (by simp)))
    | some o =>
      have hbs := ih (fun x hx => h x (by simp [hx]))
      cases o with
      | none => exact hbs
      | some r =>
        cases hrs : parseBlocks bs with
        | none => rw [hrs] at hbs; cases hbs
        | some rs => simp

theorem takeWhile_append_stop {f : Char → Bool} :
    ∀ {p : Chars} {a : Char} {r : Chars}, (∀ c ∈ p, f c = true) → f a = false →
      (p ++ a :: r).takeWhile f = p := by
  intro p
  induction p with
  | nil => intro a r _ ha; simp [List.takeWhile_cons, ha]
  | cons x p ih =>
    intro a r hp ha
    have hx : f x = true := hp x (by simp)
    simp only [List.cons_append, List.takeWhile_cons, hx, if_true]
    rw [ih (fun c hc => hp c (by simp [hc])) ha]

theorem dropWhile_append_stop {f : Char → Bool} :
    ∀ {p : Chars} {a : Char} {r : Chars}, (∀ c ∈ p, f c = true) → f a = false →
      (p ++ a :: r).dropWhile f = a :: r := by
  intro p
  induction p with
  | nil => intro a r _ ha; simp [List.dropWhile_cons, ha]
  | cons x p ih =>
    intro a r hp ha
    have hx : f x = true := hp x (by simp)
    simp only [List.cons_append, List.dropWhile_cons, hx, if_true]
    exact ih (fun c hc => hp c (by simp [hc])) ha

theorem tryQuoted_exact {p r : Chars} (hne : p ≠ []) (hp : ∀ c ∈ p, notQuote c = true) :
    tryQuoted (quoteC :: (p ++ quoteC :: r)) = some (p, r) := by
  have hq : notQuote quoteC = false := by decide
  simp only [tryQuoted]
  rw [dropWhile_append_stop hp hq, takeWhile_append_stop hp hq]
  simp [hne]

theorem allSpace_false_of_id {b : Chars} {rid : Chars}
    (h : search tryIdAt b = some rid) : b.all isSpace = false := by
  obtain ⟨s, hs, hts⟩ := search_eq_some h
  have hp := tryIdAt_key hts
  rw [List.isPrefixOf_iff_prefix] at hp
  obtain ⟨t, ht⟩ := hp
  have hi : 'i' ∈ b := by
    have his : 'i' ∈ s := by rw [← ht]; simp [idKey]
    exact hs.sublist.subset his
  cases hb : b.all isSpace with
  | false => rfl
  | true => exact absurd (List.all_eq_true.mp hb 'i' hi) (by decide)

theorem findallAux_skip :
    ∀ (k t : Chars) (acc : List Chars),
      findallAux (k ++ t) k.length acc = findallAux t 0 acc := by
  intro k
  induction k with
  | nil => intro t acc; rfl
  | cons c k ih => intro t acc; exact ih t acc

theorem findall_build :
    ∀ (ks : List Chars) (acc : List Chars),
      (∀ k ∈ ks, k ≠ [] ∧ ∀ c ∈ k, notQuote c = true) →
      findallAux (kwBuild ks) 0 acc = acc.reverse ++ ks := by
  intro ks
  induction ks with
  | nil => intro acc _; simp [kwBuild, findallAux]
  | cons k ks ih =>
    intro acc h
    have hk := h k (by simp)
    have hq : tryQuoted (quoteC :: (k ++ (quoteC :: ',' :: ' ' :: kwBuild ks))) =
        some (k, ',' :: ' ' :: kwBuild ks) := tryQuoted_exact hk.1 hk.2
    show findallAux (quoteC :: (k ++ (quoteC :: ',' :: ' ' :: kwBuild ks))) 0 acc =
      acc.reverse ++ (k :: ks)
    simp only [findallAux, hq]
    have hT : k ++ (quoteC :: ',' :: ' ' :: kwBuild ks) =
        (k ++ [quoteC]) ++ (',' :: ' ' :: kwBuild ks) := by simp
    have hL : k.length + 1 = (k ++ [quoteC]).length := by simp
    rw [hT, hL, findallAux_skip]
    have hstep : findallAux (',' :: ' ' :: kwBuild ks) 0 (k :: acc) =
        findallAux (kwBuild ks) 0 (k :: acc) := rfl
    rw [hstep, ih (k :: acc) (fun x hx => h x (by simp [hx]))]
    simp

theorem tryPlain_exact {p r : Chars} (hne : p ≠ []) (hp : ∀ c ∈ p, notQuote c = true) :
    tryPlainRegexAt (regexEqQ ++ (p ++ (quoteC :: r))) = some p := by
  unfold tryPlainRegexAt
  have hkey : tryKeyEq regexKey (regexEqQ ++ (p ++ (quoteC :: r))) =
      some (quoteC :: (p ++ (quoteC :: r))) := rfl
  rw [hkey]
  simp [tryQuoted_exact hne hp]

theorem parseBlock_some_some {b : Chars} {r : RuleRecord}
    (h : parseBlock b = some (some r)) :
    ∃ rid e, search tryIdAt b = some rid ∧ entropyResult b = some e ∧
      (extractRegex b).getD [] ≠ [] ∧
      r = ⟨rid, (search tryDescAt b).getD [], (extractRegex b).getD [],
        (match search tryKeywordsAt b with
         | none => []
         | some inner => findallQuoted inner), e⟩ := by
  unfold parseBlock at h
  split at h
  · simp at h
  · cases hid : search tryIdAt b with
    | none => rw [hid] at h; simp at h
    | some rid =>
      simp only [hid] at h
      cases he : entropyResult b with
      | none => simp [he] at h
      | some e =>
        simp only [he] at h
        split at h
        · rename_i hpat
          injection h with h
          injection h with h
          exact ⟨rid, e, rfl, rfl, hpat, h.symm⟩
        · simp at h

theorem parseBlock_makes {b : Chars} {rid : Chars} {e : ℚ}
    (hid : search tryIdAt b = some rid) (he : entropyResult b = some e)
    (hpat : (extractRegex b).getD [] ≠ []) :
    parseBlock b = some (some ⟨rid, (search tryDescAt b).getD [],
      (extractRegex b).getD [],
      (match search tryKeywordsAt b with
       | none => []
       | some inner => findallQuoted inner), e⟩) := by
  unfold parseBlock
  rw [if_neg (by rw [allSpace_false_of_id hid]; exact Bool.false_ne_true)]
  simp only [hid, he, if_pos hpat]

/-! ### Claim theorems -/

/-- Claim C1 (amended): extraction never fails and returns a (possibly empty)
list of rule records, provided that in every candidate block the matched
entropy run (when the `entropy` key matches at all) is a valid float.  Without
that proviso the claim is refuted by `c1_counterexample`: `float` raises
`ValueError` on a digits-and-dots run with no digit or several dots. -/
theorem c1_extract_total_unless_entropy_invalid (content : Chars)
    (h : ∀ b ∈ (splitOnTok rulesTok content).drop 1, entOk b = true) :
    (parse_gitleaks content).isSome = true := by
  unfold parse_gitleaks
  exact parseBlocks_isSome h

/-- Claim C1 witness: the amended theorem applied at a concrete input. -/
theorem c1_witness :
    (∀ b ∈ (splitOnTok rulesTok
        (("x[[rules]] id = \x22a\x22 regex = \x22b\x22").data)).drop 1, entOk b = true) ∧
    (parse_gitleaks (("x[[rules]] id = \x22a\x22 regex = \x22b\x22").data)).isSome = true :=
  ⟨by decide, c1_extract_total_unless_entropy_invalid _ (by decide)⟩

/-- Claim C1 counterexample: on a block with `entropy = .` the source raises
`ValueError` inside `float` (modelled as `none`), so the extraction function
does not return a list for every input string. -/
theorem c1_counterexample :
    parse_gitleaks (("[[rules]] id = \x22a\x22 entropy = .").data) = none := by decide

/-- Claim C2: every RuleRecord in a returned list has a non-empty identifier
and a non-empty pattern. -/
theorem c2_records_have_nonempty_id_and_pattern (content : Chars)
    (rs : List RuleRecord) (h : parse_gitleaks content = some rs) :
    ∀ r ∈ rs, r.id ≠ [] ∧ r.regex ≠ [] := by
  intro r hr
  have heq := parseBlocks_eq h
  rw [heq] at hr
  obtain ⟨b, hb, hfb⟩ := List.mem_filterMap.mp hr
  have hpb : parseBlock b = some (some r) := by
    cases hx : parseBlock b with
    | none => rw [hx] at hfb; simp at hfb
    | some o => rw [hx] at hfb; simp at hfb; rw [hfb]
  obtain ⟨rid, e, hid, he, hpat, hrec⟩ := parseBlock_some_some hpb
  constructor
  · rw [hrec]
    obtain ⟨s, _, hts⟩ := search_eq_some hid
    exact tryIdAt_ne_nil hts
  · rw [hrec]
    exact hpat

/-- Claim C2 witness: the theorem applied at a concrete input. -/
theorem c2_witness :
    parse_gitleaks (("x[[rules]] id = \x22k\x22 regex = \x22p\x22").data) =
      some [⟨['k'], [], ['p'], [], 0⟩] ∧
    (⟨['k'], [], ['p'], [], 0⟩ : RuleRecord).id ≠ [] ∧
    (⟨['k'], [], ['p'], [], 0⟩ : RuleRecord).regex ≠ [] := by
  refine ⟨by decide, ?_⟩
  exact c2_records_have_nonempty_id_and_pattern _ _
    (by decide : parse_gitleaks (("x[[rules]] id = \x22k\x22 regex = \x22p\x22").data) =
      some [⟨['k'], [], ['p'], [], 0⟩]) _ (by decide)

/-- Claim C3 (amended): the entropy field is 0.0 when the `entropy` key does
not match anywhere in the block, and equals the parsed float of the matched
digits-and-dots run whenever that run parses; a block with `entropy = 6.0`
yields 6.0.  The original claim's `or its value is unparsable` default is
refuted by `c3_counterexample`: an unparsable run raises `ValueError` instead
of defaulting to 0.0. -/
theorem c3_entropy_default_and_parse :
    (∀ b r, parseBlock b = some (some r) → search tryEntropyAt b = none →
      r.entropy = 0) ∧
    (∀ b r run, parseBlock b = some (some r) → search tryEntropyAt b = some run →
      pyFloat run = some r.entropy) ∧
    parse_gitleaks (("[[rules]] id = \x22a\x22 regex = \x22b\x22 entropy = 6.0").data) =
      some [⟨['a'], [], ['b'], [], 6⟩] := by
  refine ⟨?_, ?_, by decide⟩
  · intro b r h hent
    obtain ⟨rid, e, hid, he, hpat, hrec⟩ := parseBlock_some_some h
    rw [hrec]
    unfold entropyResult at he
    simp only [hent] at he
    injection he with he
    exact he.symm
  · intro b r run h hent
    obtain ⟨rid, e, hid, he, hpat, hrec⟩ := parseBlock_some_some h
    rw [hrec]
    unfold entropyResult at he
    simp only [hent] at he
    exact he

/-- Claim C3 witness: the first conjunct applied at a concrete block with no
entropy key. -/
theorem c3_witness :
    parseBlock ((" id = \x22a\x22 regex = \x22b\x22").data) =
      some (some ⟨['a'], [], ['b'], [], 0⟩) ∧
    search tryEntropyAt ((" id = \x22a\x22 regex = \x22b\x22").data) = none ∧
    (⟨['a'], [], ['b'], [], 0⟩ : RuleRecord).entropy = 0 :=
  ⟨by decide, by decide,
    c3_entropy_default_and_parse.1 ((" id = \x22a\x22 regex = \x22b\x22").data)
      ⟨['a'], [], ['b'], [], 0⟩ (by decide) (by decide)⟩

/-- Claim C3 counterexample: `entropy = 1.2.3` matches `[\d.]+` but is not a
valid float; the source raises `ValueError` instead of yielding
`entropyThreshold == 0.0`. -/
theorem c3_counterexample :
    parse_gitleaks
      (("[[rules]] id = \x22a\x22 regex = \x22b\x22 entropy = 1.2.3").data) = none := by
  decide

/-- Claim C4: in a block with two plain double-quoted `regex` keys, the
extracted pattern is the first occurrence's content up to its first closing
delimiter, never the maximal span reaching the second occurrence. -/
theorem c4_first_regex_occurrence_wins (p q : Chars) (hne : p ≠ [])
    (hp : ∀ c ∈ p, notQuote c = true)
    (h1 : containsTok [apos, apos, apos] (c4Block p q) = false)
    (h2 : containsTok [quoteC, quoteC, quoteC] (c4Block p q) = false) :
    extractRegex (c4Block p q) = some p := by
  unfold extractRegex
  simp only [search_tripleAt_none h1, search_tripleAt_none h2]
  exact search_head (tryPlain_exact hne hp)

/-- Claim C4 witness: the theorem applied with values `first` and `second`. -/
theorem c4_witness :
    (['f', 'i', 'r', 's', 't'] : Chars) ≠ [] ∧
    (∀ c ∈ (['f', 'i', 'r', 's', 't'] : Chars), notQuote c = true) ∧
    containsTok [apos, apos, apos]
      (c4Block ['f', 'i', 'r', 's', 't'] ['s', 'e', 'c', 'o', 'n', 'd']) = false ∧
    containsTok [quoteC, quoteC, quoteC]
      (c4Block ['f', 'i', 'r', 's', 't'] ['s', 'e', 'c', 'o', 'n', 'd']) = false ∧
    extractRegex (c4Block ['f', 'i', 'r', 's', 't'] ['s', 'e', 'c', 'o', 'n', 'd']) =
      some ['f', 'i', 'r', 's', 't'] :=
  ⟨by decide, by decide, by decide, by decide,
    c4_first_regex_occurrence_wins _ _ (by decide) (by decide) (by decide) (by decide)⟩

/-- Claim C5: pattern extraction tries a triple-single-quoted value, then a
triple-double-quoted value, then a plain double-quoted value, in that strict
order, using the first that matches; concretely, a triple-single-quoted
pattern containing a literal double quote is extracted whole, not truncated
at the embedded quote. -/
theorem c5_fallback_order :
    (∀ b x, search (tryTripleAt apos) b = some x → extractRegex b = some x) ∧
    (∀ b x, search (tryTripleAt apos) b = none →
      search (tryTripleAt quoteC) b = some x → extractRegex b = some x) ∧
    (∀ b, search (tryTripleAt apos) b = none → search (tryTripleAt quoteC) b = none →
      extractRegex b = search tryPlainRegexAt b) ∧
    parseBlock ((" id = \x22a\x22 regex = ").data ++ ([apos, apos, apos] ++
        (("foo\x22bar").data ++ [apos, apos, apos]))) =
      some (some ⟨['a'], [], ("foo\x22bar").data, [], 0⟩) := by
  refine ⟨?_, ?_, ?_, by decide⟩
  · intro b x h
    unfold extractRegex
    simp only [h]
  · intro b x h1 h2
    unfold extractRegex
    simp only [h1, h2]
  · intro b h1 h2
    unfold extractRegex
    simp only [h1, h2]

/-- Claim C5 witness: the first conjunct applied at a concrete block. -/
theorem c5_witness :
    search (tryTripleAt apos)
      ((" regex = ").data ++ ([apos, apos, apos] ++ (['x'] ++ [apos, apos, apos]))) =
      some ['x'] ∧
    extractRegex
      ((" regex = ").data ++ ([apos, apos, apos] ++ (['x'] ++ [apos, apos, apos]))) =
      some ['x'] :=
  ⟨by decide, c5_fallback_order.1 _ _ (by decide)⟩

/-- Claim C6 (amended): provided entropy extraction does not raise, a
candidate block produces a RuleRecord iff identifier and pattern extraction
both succeed; a block missing `id` is skipped unconditionally, a block
missing `regex` in all three forms is skipped when entropy does not raise,
and a skipped block lets the loop continue with the remaining blocks.  The
unconditional `if` direction of the original claim is refuted by
`c6_counterexample`: with both extractions succeeding, an unparsable entropy
run yields no record but a raised `ValueError`. -/
theorem c6_record_iff_id_and_pattern :
    (∀ b r, parseBlock b = some (some r) →
      (search tryIdAt b).isSome = true ∧ (extractRegex b).isSome = true) ∧
    (∀ b, search tryIdAt b = none → parseBlock b = some none) ∧
    (∀ b, extractRegex b = none → entropyResult b ≠ none → parseBlock b = some none) ∧
    (∀ b, (search tryIdAt b).isSome = true → (extractRegex b).isSome = true →
      entropyResult b ≠ none → ∃ r, parseBlock b = some (some r)) ∧
    (∀ b bs, parseBlock b = some none → parseBlocks (b :: bs) = parseBlocks bs) := by
  refine ⟨?_, ?_, ?_, ?_, ?_⟩
  · intro b r h
    obtain ⟨rid, e, hid, he, hpat, _⟩ := parseBlock_some_some h
    refine ⟨by rw [hid]; rfl, ?_⟩
    cases hx : extractRegex b with
    | none => rw [hx] at hpat; simp at hpat
    | some y => rfl
  · intro b h
    unfold parseBlock
    split
    · rfl
    · simp only [h]
  · intro b hreg hent
    unfold parseBlock
    split
    · rfl
    · cases hid : search tryIdAt b with
      | none => simp [hid]
      | some rid =>
        cases he : entropyResult b with
        | none => exact absurd he hent
        | some e =>
          simp only [hid, he]
          rw [if_neg (by rw [hreg]; simp)]
  · intro b hid hreg hent
    obtain ⟨rid, hid2⟩ := Option.isSome_iff_exists.mp hid
    obtain ⟨pat, hpat2⟩ := Option.isSome_iff_exists.mp hreg
    cases he : entropyResult b with
    | none => exact absurd he hent
    | some e =>
      refine ⟨_, parseBlock_makes hid2 he ?_⟩
      rw [hpat2]
      simpa using extractRegex_ne_nil hpat2
  · intro b bs h
    simp only [parseBlocks, h]

/-- Claim C6 witness: the missing-id conjunct applied at a concrete block. -/
theorem c6_witness :
    search tryIdAt ((" regex = \x22b\x22").data) = none ∧
    parseBlock ((" regex = \x22b\x22").data) = some none :=
  ⟨by decide, c6_record_iff_id_and_pattern.2.1 _ (by decide)⟩

/-- Claim C6 counterexample: identifier and pattern extraction both succeed
on this block, yet no RuleRecord is produced: the unparsable `entropy = ..`
run raises `ValueError` first. -/
theorem c6_counterexample :
    (search tryIdAt ((" id = \x22a\x22 regex = \x22b\x22 entropy = ..").data)).isSome = true ∧
    (extractRegex ((" id = \x22a\x22 regex = \x22b\x22 entropy = ..").data)).isSome = true ∧
    parseBlock ((" id = \x22a\x22 regex = \x22b\x22 entropy = ..").data) = none := by decide

/-- Claim C7: the keywords field is the sequence of every double-quoted
string inside the captured bracket contents in order of appearance; an
absent key or empty bracket yields the empty sequence. -/
theorem c7_keywords_in_order :
    (∀ b r, parseBlock b = some (some r) → search tryKeywordsAt b = none →
      r.keywords = []) ∧
    (∀ ks : List Chars, (∀ k ∈ ks, k ≠ [] ∧ ∀ c ∈ k, notQuote c = true) →
      findallQuoted (kwBuild ks) = ks) ∧
    parse_gitleaks (("[[rules]] id = \x22a\x22 regex = \x22b\x22 keywords = [\x22a\x22, \x22b\x22, \x22c\x22]").data) =
      some [⟨['a'], [], ['b'], [['a'], ['b'], ['c']], 0⟩] ∧
    parse_gitleaks (("[[rules]] id = \x22a\x22 regex = \x22b\x22 keywords = []").data) =
      some [⟨['a'], [], ['b'], [], 0⟩] := by
  refine ⟨?_, ?_, by decide, by decide⟩
  · intro b r h hkw
    obtain ⟨rid, e, hid, he, hpat, hrec⟩ := parseBlock_some_some h
    rw [hrec]
    show (match search tryKeywordsAt b with
      | none => []
      | some inner => findallQuoted inner) = []
    simp only [hkw]
  · intro ks h
    exact findall_build ks [] h

/-- Claim C7 witness: the order-preservation conjunct applied at a concrete
keyword list. -/
theorem c7_witness :
    (∀ k ∈ ([['a'], ['b']] : List Chars), k ≠ [] ∧ ∀ c ∈ k, notQuote c = true) ∧
    findallQuoted (kwBuild [['a'], ['b']]) = [['a'], ['b']] :=
  ⟨by decide, c7_keywords_in_order.2.1 _ (by decide)⟩

/-- Claim C8: extraction splits the input on the `[[rules]]` delimiter,
discards the header segment before the first delimiter, and returns the
per-block successes in block order; with zero delimiter occurrences the
result is the empty sequence. -/
theorem c8_split_discard_header_order :
    (∀ content : Chars, containsTok rulesTok content = false →
      parse_gitleaks content = some []) ∧
    (∀ content rs, parse_gitleaks content = some rs →
      rs = ((splitOnTok rulesTok content).drop 1).filterMap
        (fun b => (parseBlock b).getD none)) := by
  constructor
  · intro content h
    unfold parse_gitleaks splitOnTok
    rw [splitAux_no_tok [] h]
    rfl
  · intro content rs h
    exact parseBlocks_eq h

/-- Claim C8 witness: the zero-delimiter conjunct applied at a concrete
input. -/
theorem c8_witness :
    containsTok rulesTok (("just a header, no delimiter").data) = false ∧
    parse_gitleaks (("just a header, no delimiter").data) = some [] :=
  ⟨by decide, c8_split_discard_header_order.1 _ (by decide)⟩

/-- Claim C9: extraction is a deterministic pure function: two runs on
identical input yield identical output. -/
theorem c9_deterministic (content : Chars) (r1 r2 : Option (List RuleRecord))
    (h1 : parse_gitleaks content = r1) (h2 : parse_gitleaks content = r2) :
    r1 = r2 := by
  rw [← h1, ← h2]

/-- Claim C9 witness: the theorem applied at a concrete input. -/
theorem c9_witness :
    (some [(⟨['a'], [], ['b'], [], 0⟩ : RuleRecord)] : Option (List RuleRecord)) =
      some [⟨['a'], [], ['b'], [], 0⟩] :=
  c9_deterministic (("x[[rules]] id = \x22a\x22 regex = \x22b\x22").data) _ _
    (by decide) (by decide)

/-- Claim C10: a present-but-empty required field counts as absent: a block
starting with `id = ""` and containing no further `id` text yields no record
whatever else is present, and concretely `id = ""` with a pattern present, or
`regex = ""` as the only regex value, both yield no record. -/
theorem c10_empty_required_fields :
    (∀ rest, containsTok idKey rest = false →
      parseBlock (idEmptyPre ++ rest) = some none) ∧
    parse_gitleaks (("[[rules]] id = \x22\x22 regex = \x22abc\x22").data) = some [] ∧
    parse_gitleaks (("[[rules]] id = \x22a\x22 regex = \x22\x22").data) = some [] := by
  refine ⟨?_, by decide, by decide⟩
  intro rest h
  have hstep : search tryIdAt (idEmptyPre ++ rest) = search tryIdAt rest := rfl
  have hnone : search tryIdAt rest = none :=
    search_none_of_key (fun s x hs => tryIdAt_key hs) h
  have hsp : (idEmptyPre ++ rest).all isSpace = false := rfl
  unfold parseBlock
  rw [if_neg (by rw [hsp]; exact Bool.false_ne_true)]
  simp only [hstep, hnone]

/-- Claim C10 witness: the empty-id conjunct applied with a pattern
present. -/
theorem c10_witness :
    containsTok idKey ((" regex = \x22abc\x22").data) = false ∧
    parseBlock (idEmptyPre ++ (" regex = \x22abc\x22").data) = some none :=
  ⟨by decide, c10_empty_required_fields.1 _ (by decide)⟩
